import Mathlib

/-!
Verification of the dependency-list cleaner in `src/get_req.py`.

The program is a single function `clean_dependencies(file_path, output_path)`:
it reads all lines of the input file, maps `line.lstrip("- ").strip()` over
them, joins the results with `'\n'`, and writes the joined string to the
output file.

Shallow embedding conventions:
* file contents and lines are `List Char` (text mode, line terminators
  already normalised to `'\n'` by Python's universal-newlines reading);
* `f.readlines()` is `splitLines` (keepends splitting on `'\n'`);
* `str.lstrip("- ")` is `List.dropWhile dashSpace`;
* `str.strip()` is `pyStrip` (drop whitespace from both ends), with
  whitespace modelled by `pyIsSpace`, the Unicode whitespace set that
  CPython's `str.strip` uses;
* the file system is modelled as a map from path strings to optional file
  contents (`none` = path missing/unreadable), and `clean_dependencies`
  becomes a pure state transformer on it, preserving the code's order of
  operations (read fully, then open the output for writing).
-/

/-- The character set of `lstrip("- ")` in `get_req.py` line 6. -/
def dashSpace (c : Char) : Bool := c == '-' || c == ' '

/-- Python's whitespace set, as stripped by `str.strip()` with no argument
(Unicode whitespace: ASCII spaces and control whitespace, NEL, NBSP, and the
Unicode space separators). -/
def pyIsSpace (c : Char) : Bool :=
  c == ' ' || c == '\t' || c == '\n' || c == '\r' || c == '\x0b' || c == '\x0c' ||
  ('\x1c' ≤ c && c ≤ '\x1f') || c == '\u0085' || c == '\u00a0' || c == '\u1680' ||
  ('\u2000' ≤ c && c ≤ '\u200a') || c == '\u2028' || c == '\u2029' || c == '\u202f' ||
  c == '\u205f' || c == '\u3000'

/-- `line.lstrip("- ")`: remove leading characters drawn from the set
consisting of a dash and a space. -/
def lstripDashSpace (l : List Char) : List Char := l.dropWhile dashSpace

/-- `s.strip()`: remove all leading and trailing whitespace. -/
def pyStrip (l : List Char) : List Char :=
  (l.dropWhile pyIsSpace).rdropWhile pyIsSpace

/-- The per-line transform of `get_req.py` line 6: `line.lstrip("- ").strip()`. -/
def cleanLine (l : List Char) : List Char := pyStrip (lstripDashSpace l)

/-- Helper for `splitLines`: prepend a character to the first line of an
already-split tail, starting a fresh line if there is none. -/
def consHead (c : Char) : List (List Char) → List (List Char)
  | [] => [[c]]
  | l :: ls => (c :: l) :: ls

/-- `f.readlines()` on text-mode content: split into lines, each line keeping
its trailing `'\n'` (the final line has none when the content does not end
with a newline); empty content yields no lines. -/
def splitLines : List Char → List (List Char)
  | [] => []
  | c :: cs =>
    if c = '\n' then ['\n'] :: splitLines cs else consHead c (splitLines cs)

/-- The content written by `clean_dependencies`: the cleaned lines joined by
a single `'\n'` (`get_req.py` lines 6 and 10). -/
def clean_content (s : List Char) : List Char :=
  List.intercalate ['\n'] ((splitLines s).map cleanLine)

/-- A file-system state: each path string is either absent/unreadable
(`none`) or holds some text content. -/
structure FS where
  files : String → Option (List Char)

/-- The only failure mode of the script that the embedding models: the
`open(file_path, 'r')` call on line 2 raising because the input is missing
or unreadable. -/
inductive FileError where
  | inputUnreadable

/-- `open(output_path, 'w')` followed by `f.write`: create or truncate the
file at `p` and store the new content. -/
def writeFile (fs : FS) (p : String) (content : List Char) : FS :=
  ⟨fun q => if q = p then some content else fs.files q⟩

/-- `clean_dependencies(file_path, output_path)` as a state transformer on
the modelled file system: read the input (failing first, before the output
is touched, if it is absent), clean it, then write the output. -/
def clean_dependencies (file_path output_path : String) (fs : FS) :
    Except FileError Unit × FS :=
  match fs.files file_path with
  | none => (Except.error FileError.inputUnreadable, fs)
  | some s => (Except.ok (), writeFile fs output_path (clean_content s))

/-! ### Basic facts about the strip primitives -/

lemma head_dropWhile_false (p : Char → Bool) (l : List Char) (c : Char)
    (h : (l.dropWhile p).head? = some c) : p c = false := by
  induction l with
  | nil => simp [List.dropWhile] at h
  | cons a t ih =>
    rw [List.dropWhile_cons] at h
    by_cases hp : p a
    · rw [if_pos hp] at h
      exact ih h
    · rw [if_neg hp] at h
      simp only [List.head?_cons, Option.some.injEq] at h
      subst h
      exact Bool.eq_false_iff.mpr hp

lemma getLast_rdropWhile_false (p : Char → Bool) (l : List Char) (c : Char)
    (h : (l.rdropWhile p).getLast? = some c) : p c = false := by
  have hne : l.rdropWhile p ≠ [] := by
    intro h0
    rw [h0] at h
    simp at h
  have hlast := List.rdropWhile_last_not p l hne
  rw [List.getLast?_eq_getLast _ hne, Option.some.injEq] at h
  subst h
  exact Bool.eq_false_iff.mpr hlast

lemma head?_eq_of_pref {l₁ l₂ : List Char} (h : l₁ <+: l₂) {c : Char}
    (hc : l₁.head? = some c) : l₂.head? = some c := by
  obtain ⟨t, rfl⟩ := h
  cases l₁ with
  | nil => simp at hc
  | cons a u => simpa using hc

lemma infix_mem {l₁ l₂ : List Char} (h : l₁ <:+: l₂) {c : Char}
    (hc : c ∈ l₁) : c ∈ l₂ := by
  obtain ⟨u, v, rfl⟩ := h
  simp [hc]

lemma cleanLine_isInfix (l : List Char) : cleanLine l <:+: l := by
  have h1 : lstripDashSpace l <:+ l := List.dropWhile_suffix _
  have h2 : (lstripDashSpace l).dropWhile pyIsSpace <:+ lstripDashSpace l :=
    List.dropWhile_suffix _
  have h3 : cleanLine l <+: (lstripDashSpace l).dropWhile pyIsSpace :=
    List.rdropWhile_prefix _ _
  exact h3.isInfix.trans ((h2.trans h1).isInfix)

lemma cleanLine_head_false (l : List Char) (c : Char)
    (h : (cleanLine l).head? = some c) : pyIsSpace c = false := by
  have hpref : cleanLine l <+: (lstripDashSpace l).dropWhile pyIsSpace :=
    List.rdropWhile_prefix _ _
  exact head_dropWhile_false pyIsSpace (lstripDashSpace l) c (head?_eq_of_pref hpref h)

lemma cleanLine_getLast_false (l : List Char) (c : Char)
    (h : (cleanLine l).getLast? = some c) : pyIsSpace c = false :=
  getLast_rdropWhile_false pyIsSpace _ c h

/-! ### Structure of `splitLines` -/

lemma splitLines_flatten (s : List Char) : (splitLines s).flatten = s := by
  induction s with
  | nil => rfl
  | cons c cs ih =>
    by_cases hc : c = '\n'
    · subst hc
      simp [splitLines, ih]
    · rw [splitLines, if_neg hc]
      cases h : splitLines cs with
      | nil =>
        rw [h] at ih
        simp only [List.flatten_nil] at ih
        simp [consHead, ← ih]
      | cons l ls =>
        rw [h] at ih
        simp only [List.flatten_cons] at ih ⊢
        simp [consHead, List.flatten_cons, ih]

lemma splitLines_shape (s : List Char) :
    ∀ l ∈ splitLines s, ∃ m, '\n' ∉ m ∧ (l = m ++ ['\n'] ∨ l = m) := by
  induction s with
  | nil => intro l hl; simp [splitLines] at hl
  | cons c cs ih =>
    intro l hl
    by_cases hc : c = '\n'
    · subst hc
      rw [splitLines, if_pos rfl] at hl
      rcases List.mem_cons.mp hl with rfl | hl
      · exact ⟨[], by simp⟩
      · exact ih l hl
    · rw [splitLines, if_neg hc] at hl
      cases h : splitLines cs with
      | nil =>
        rw [h] at hl
        simp only [consHead, List.mem_singleton] at hl
        subst hl
        exact ⟨[c], by simp only [List.mem_singleton]; exact fun h => hc h.symm, Or.inr rfl⟩
      | cons l₀ ls =>
        rw [h] at hl
        simp only [consHead, List.mem_cons] at hl
        rcases hl with rfl | hl
        · obtain ⟨m₀, hm₀, hor⟩ := ih l₀ (h ▸ List.mem_cons_self l₀ ls)
          refine ⟨c :: m₀, ?_, ?_⟩
          · simp only [List.mem_cons, not_or]
            exact ⟨fun h => hc h.symm, hm₀⟩
          rcases hor with rfl | rfl
          · exact Or.inl rfl
          · exact Or.inr rfl
        · exact ih l (h ▸ List.mem_cons_of_mem l₀ hl)

lemma mem_line_mem_content {s l : List Char} (hl : l ∈ splitLines s) {c : Char}
    (hc : c ∈ l) : c ∈ s := by
  rw [← splitLines_flatten s]
  exact List.mem_flatten.mpr ⟨l, hl, hc⟩

lemma splitLines_append_newline (e t : List Char) :
    '\n' ∉ e → splitLines (e ++ '\n' :: t) = (e ++ ['\n']) :: splitLines t := by
  induction e with
  | nil => intro _; simp [splitLines]
  | cons c e' ih =>
    intro he
    have hc : c ≠ '\n' := fun h => he (by simp [h])
    have he' : '\n' ∉ e' := fun h => he (List.mem_cons_of_mem _ h)
    rw [List.cons_append, splitLines, if_neg hc, ih he']
    rfl

lemma splitLines_no_newline (e : List Char) :
    '\n' ∉ e → e ≠ [] → splitLines e = [e] := by
  induction e with
  | nil => intro _ h; exact absurd rfl h
  | cons c e' ih =>
    intro he _
    have hc : c ≠ '\n' := fun h => he (by simp [h])
    have he' : '\n' ∉ e' := fun h => he (List.mem_cons_of_mem _ h)
    rw [splitLines, if_neg hc]
    by_cases h0 : e' = []
    · subst h0
      rfl
    · rw [ih he' h0]
      rfl

/-! ### `cleanLine` facts needed for file-level reasoning -/

lemma dropWhile_append_char (p : Char → Bool) (l₁ l₂ : List Char) :
    (l₁ ++ l₂).dropWhile p =
      if (l₁.dropWhile p).isEmpty then l₂.dropWhile p else l₁.dropWhile p ++ l₂ := by
  induction l₁ with
  | nil => simp
  | cons a t ih =>
    by_cases hp : p a
    · simp only [List.cons_append, List.dropWhile_cons, hp, if_true, ih]
    · simp [List.dropWhile_cons, hp]

lemma cleanLine_concat_newline (m : List Char) :
    cleanLine (m ++ ['\n']) = cleanLine m := by
  have e1 : List.dropWhile dashSpace ['\n'] = ['\n'] := by decide
  have e2 : List.dropWhile pyIsSpace ['\n'] = [] := by decide
  show (((m ++ ['\n']).dropWhile dashSpace).dropWhile pyIsSpace).rdropWhile pyIsSpace =
    ((m.dropWhile dashSpace).dropWhile pyIsSpace).rdropWhile pyIsSpace
  rw [dropWhile_append_char dashSpace m ['\n']]
  by_cases h1 : (m.dropWhile dashSpace).isEmpty
  · rw [if_pos h1, e1, e2, List.isEmpty_iff.mp h1]
    rfl
  · rw [if_neg h1, dropWhile_append_char pyIsSpace]
    by_cases h2 : ((m.dropWhile dashSpace).dropWhile pyIsSpace).isEmpty
    · rw [if_pos h2, e2, List.isEmpty_iff.mp h2]
    · rw [if_neg h2]
      exact List.rdropWhile_concat_pos pyIsSpace _ '\n' (by decide)

lemma cleaned_entries_no_newline (s : List Char) :
    ∀ e ∈ (splitLines s).map cleanLine, '\n' ∉ e := by
  intro e he
  rw [List.mem_map] at he
  obtain ⟨l, hl, rfl⟩ := he
  obtain ⟨m, hm, hor⟩ := splitLines_shape s l hl
  have heq : cleanLine l = cleanLine m := by
    rcases hor with rfl | rfl
    exacts [cleanLine_concat_newline m, rfl]
  rw [heq]
  intro hmem
  exact hm (infix_mem (cleanLine_isInfix m) hmem)

lemma cleanLine_fixed (m : List Char)
    (hm : ∀ c ∈ m, pyIsSpace c = true → c = ' ') :
    cleanLine (cleanLine m) = cleanLine m := by
  by_cases hA : m.dropWhile dashSpace = []
  · have hm0 : cleanLine m = [] := by
      show ((m.dropWhile dashSpace).dropWhile pyIsSpace).rdropWhile pyIsSpace = []
      rw [hA]
      rfl
    rw [hm0]
    rfl
  · obtain ⟨a, A', hA'⟩ := List.exists_cons_of_ne_nil hA
    have hhA : (m.dropWhile dashSpace).head? = some a := by rw [hA']; rfl
    have hdA : dashSpace a = false := head_dropWhile_false dashSpace m a hhA
    have haM : a ∈ m := by
      have hsuffix : m.dropWhile dashSpace <:+ m := List.dropWhile_suffix _
      refine hsuffix.sublist.subset ?_
      rw [hA']
      exact List.mem_cons_self _ _
    have hpa : pyIsSpace a = false := by
      cases hpy : pyIsSpace a
      · rfl
      · have ha' := hm a haM hpy
        rw [ha'] at hdA
        exact absurd hdA (by decide)
    have hB : (m.dropWhile dashSpace).dropWhile pyIsSpace = m.dropWhile dashSpace := by
      rw [hA', List.dropWhile_cons]
      simp [hpa]
    set e := (m.dropWhile dashSpace).rdropWhile pyIsSpace with he_def
    have hcm : cleanLine m = e := by
      show ((m.dropWhile dashSpace).dropWhile pyIsSpace).rdropWhile pyIsSpace = e
      rw [hB]
    by_cases he : e = []
    · rw [hcm, he]
      rfl
    · obtain ⟨b, e', hbe⟩ := List.exists_cons_of_ne_nil he
      have hpr : e <+: m.dropWhile dashSpace := List.rdropWhile_prefix _ _
      have hb : b = a := by
        have h1 : e.head? = some b := by rw [hbe]; rfl
        have h2 := head?_eq_of_pref hpr h1
        rw [hA'] at h2
        simp only [List.head?_cons, Option.some.injEq] at h2
        exact h2.symm
      have hdb : dashSpace b = false := by rw [hb]; exact hdA
      have hpb : pyIsSpace b = false := by rw [hb]; exact hpa
      have h1 : e.dropWhile dashSpace = e := by
        rw [hbe, List.dropWhile_cons]
        simp [hdb]
      have h2 : e.dropWhile pyIsSpace = e := by
        rw [hbe, List.dropWhile_cons]
        simp [hpb]
      have h3 : e.rdropWhile pyIsSpace = e := by
        apply List.rdropWhile_eq_self_iff.mpr
        intro hl
        exact List.rdropWhile_last_not pyIsSpace (m.dropWhile dashSpace) hl
      rw [hcm]
      show ((e.dropWhile dashSpace).dropWhile pyIsSpace).rdropWhile pyIsSpace = e
      rw [h1, h2, h3]

lemma cleaned_entries_props (s : List Char)
    (hws : ∀ c ∈ s, pyIsSpace c = true → c = ' ' ∨ c = '\n') :
    ∀ e ∈ (splitLines s).map cleanLine, '\n' ∉ e ∧ cleanLine e = e := by
  intro e he
  refine ⟨cleaned_entries_no_newline s e he, ?_⟩
  rw [List.mem_map] at he
  obtain ⟨l, hl, rfl⟩ := he
  obtain ⟨m, hm, hor⟩ := splitLines_shape s l hl
  have heq : cleanLine l = cleanLine m := by
    rcases hor with rfl | rfl
    exacts [cleanLine_concat_newline m, rfl]
  have hmm : ∀ c ∈ m, pyIsSpace c = true → c = ' ' := by
    intro c hc hsp
    have hcl : c ∈ l := by
      rcases hor with rfl | rfl
      · exact List.mem_append_left _ hc
      · exact hc
    rcases hws c (mem_line_mem_content hl hcl) hsp with h' | h'
    · exact h'
    · exact absurd (h' ▸ hc) hm
  rw [heq]
  exact cleanLine_fixed m hmm

/-! ### Joining with a single newline -/

lemma intercalate_nil_char : List.intercalate ['\n'] ([] : List (List Char)) = [] := by
  simp [List.intercalate]

lemma intercalate_single (e : List Char) : List.intercalate ['\n'] [e] = e := by
  simp [List.intercalate]

lemma intercalate_cons_cons (a b : List Char) (t : List (List Char)) :
    List.intercalate ['\n'] (a :: b :: t) =
      a ++ '\n' :: List.intercalate ['\n'] (b :: t) := by
  simp [List.intercalate]

lemma splitLines_roundtrip (es : List (List Char)) :
    (∀ e ∈ es, '\n' ∉ e ∧ cleanLine e = e) → es.getLast? ≠ some [] →
    (splitLines (List.intercalate ['\n'] es)).map cleanLine = es := by
  induction es with
  | nil =>
    intro _ _
    rw [intercalate_nil_char]
    rfl
  | cons e es' ih =>
    intro h hlast
    obtain ⟨he1, he2⟩ := h e (List.mem_cons_self _ _)
    cases es' with
    | nil =>
      have hne : e ≠ [] := by
        intro h0
        exact hlast (by rw [h0]; rfl)
      rw [intercalate_single, splitLines_no_newline e he1 hne]
      simp [he2]
    | cons b t =>
      rw [intercalate_cons_cons, splitLines_append_newline _ _ he1, List.map_cons,
        cleanLine_concat_newline, he2,
        ih (fun x hx => h x (List.mem_cons_of_mem _ hx))
          (by rw [List.getLast?_cons_cons] at hlast; exact hlast)]

lemma count_newline_intercalate (es : List (List Char)) :
    (∀ e ∈ es, '\n' ∉ e) → es ≠ [] →
    (List.intercalate ['\n'] es).count '\n' = es.length - 1 := by
  induction es with
  | nil => intro _ h; exact absurd rfl h
  | cons e es' ih =>
    intro h _
    have he0 : List.count '\n' e = 0 := List.count_eq_zero.mpr (h e (List.mem_cons_self _ _))
    cases es' with
    | nil =>
      rw [intercalate_single]
      simpa using he0
    | cons b t =>
      rw [intercalate_cons_cons]
      have hrec := ih (fun x hx => h x (List.mem_cons_of_mem _ hx)) (by simp)
      rw [List.count_append, List.count_cons_self, hrec, he0]
      simp

/-! ### Claims -/

/-- C1 counterexample: the claim says a cleaned line begins with neither `'-'`
nor `' '`, but the input line `"\t- numpy"` cleans to `"- numpy"`, which
begins with `'-'` (the leading tab blocks the dash strip and is only removed
by the later whitespace strip). -/
theorem cleanLine_head_dash_counterexample :
    (cleanLine ['\t', '-', ' ', 'n', 'u', 'm', 'p', 'y']).head? = some '-' := by decide

/-- C1 (amended): the lstrip step removes every leading character in the set
consisting of `'-'` and `' '`, and the whitespace strip removes all leading
and trailing whitespace, so the cleaned line neither begins nor ends with a
whitespace character — in particular it does not begin with `' '` — though it
may still begin with `'-'`. -/
theorem cleanLine_strips_ends (L : List Char) :
    (∀ c, (lstripDashSpace L).head? = some c → dashSpace c = false) ∧
    (∀ c, (cleanLine L).head? = some c → pyIsSpace c = false ∧ c ≠ ' ') ∧
    (∀ c, (cleanLine L).getLast? = some c → pyIsSpace c = false) := by
  refine ⟨fun c h => head_dropWhile_false dashSpace L c h, fun c h => ?_,
    fun c h => cleanLine_getLast_false L c h⟩
  have h1 := cleanLine_head_false L c h
  refine ⟨h1, fun h2 => ?_⟩
  rw [h2] at h1
  exact absurd h1 (by decide)

/-- Witness for C1 (amended) at the line `"- a"`, whose cleaned form is `"a"`. -/
theorem cleanLine_strips_ends_witness :
    dashSpace 'a' = false ∧ (pyIsSpace 'a' = false ∧ 'a' ≠ ' ') ∧ pyIsSpace 'a' = false :=
  ⟨(cleanLine_strips_ends ['-', ' ', 'a']).1 'a' (by decide),
   (cleanLine_strips_ends ['-', ' ', 'a']).2.1 'a' (by decide),
   (cleanLine_strips_ends ['-', ' ', 'a']).2.2 'a' (by decide)⟩

/-- C2 counterexample: the cleaner is not idempotent on file contents. For
the input `"\t- numpy"` the first run writes `"- numpy"`, and running the
cleaner on that output yields `"numpy"`, a different result. -/
theorem clean_content_not_idempotent :
    clean_content (clean_content ['\t', '-', ' ', 'n', 'u', 'm', 'p', 'y']) ≠
      clean_content ['\t', '-', ' ', 'n', 'u', 'm', 'p', 'y'] := by decide

/-- C2 (amended): re-running the cleaner on the output of a previous run
produces the identical result, provided every whitespace character of the
input is a plain space or a newline (so no cleaned line can retain a leading
`'-'`) and, when the input has more than one line, its last line does not
clean to the empty string (otherwise the joined output ends in `'\n'` and
re-reading drops the final empty entry). -/
theorem clean_content_idempotent (s : List Char)
    (hws : ∀ c ∈ s, pyIsSpace c = true → c = ' ' ∨ c = '\n')
    (hlast : (splitLines s).length ≤ 1 ∨
      ((splitLines s).map cleanLine).getLast? ≠ some []) :
    clean_content (clean_content s) = clean_content s := by
  have hprops := cleaned_entries_props s hws
  have main : ((splitLines s).map cleanLine).getLast? ≠ some [] →
      clean_content (clean_content s) = clean_content s := by
    intro hl
    have hrt := splitLines_roundtrip ((splitLines s).map cleanLine) hprops hl
    calc clean_content (clean_content s)
        = List.intercalate ['\n']
            ((splitLines (List.intercalate ['\n'] ((splitLines s).map cleanLine))).map
              cleanLine) := rfl
      _ = List.intercalate ['\n'] ((splitLines s).map cleanLine) := by rw [hrt]
      _ = clean_content s := rfl
  rcases hlast with hlen | hlast
  · cases h : splitLines s with
    | nil =>
      have h0 : clean_content s = [] := by
        rw [clean_content, h]
        rfl
      rw [h0]
      rfl
    | cons l ls =>
      have hls : ls = [] := by
        rw [h] at hlen
        simp only [List.length_cons] at hlen
        exact List.length_eq_zero.mp (by omega)
      subst hls
      by_cases hc : cleanLine l = []
      · have h0 : clean_content s = [] := by
          rw [clean_content, h, List.map_cons, List.map_nil, hc]
          exact intercalate_single []
        rw [h0]
        rfl
      · exact main (by rw [h]; simpa using hc)
  · exact main hlast

/-- Witness for C2 (amended) at the input `"- a"`. -/
theorem clean_content_idempotent_witness :
    (∀ c ∈ ['-', ' ', 'a'], pyIsSpace c = true → c = ' ' ∨ c = '\n') ∧
    ((splitLines ['-', ' ', 'a']).map cleanLine).getLast? ≠ some [] ∧
    clean_content (clean_content ['-', ' ', 'a']) = clean_content ['-', ' ', 'a'] :=
  ⟨by decide, by decide, clean_content_idempotent _ (by decide) (Or.inr (by decide))⟩

/-- C3: the output document has as many entries as the input has lines
(`map` preserves length), and the empty entries survive in the joined
output: splitting the written content on `'\n'` recovers exactly the cleaned
entries whenever the input has at least one line. -/
theorem clean_content_line_count (s : List Char) :
    ((splitLines s).map cleanLine).length = (splitLines s).length ∧
    (splitLines s ≠ [] →
      (clean_content s).splitOn '\n' = (splitLines s).map cleanLine) := by
  refine ⟨by simp, fun hne => ?_⟩
  have hnn : ∀ l ∈ (splitLines s).map cleanLine, '\n' ∉ l := cleaned_entries_no_newline s
  have hmapne : (splitLines s).map cleanLine ≠ [] := by
    intro h0
    exact hne (List.map_eq_nil_iff.mp h0)
  exact List.splitOn_intercalate ((splitLines s).map cleanLine) '\n' hnn hmapne

/-- Witness for C3 at the input `"a\n\n"`: two input lines, and the written
output `"a\n"` splits back into the two cleaned entries `["a", ""]`. -/
theorem clean_content_line_count_witness :
    splitLines ['a', '\n', '\n'] ≠ [] ∧
    ((splitLines ['a', '\n', '\n']).map cleanLine).length =
      (splitLines ['a', '\n', '\n']).length ∧
    (clean_content ['a', '\n', '\n']).splitOn '\n' =
      (splitLines ['a', '\n', '\n']).map cleanLine :=
  ⟨by decide, (clean_content_line_count _).1, (clean_content_line_count _).2 (by decide)⟩

/-- C4: order is preserved — entry `i` of the output document is exactly the
cleaned form of input line `i`; the map neither reorders, deduplicates,
inserts nor deletes entries. -/
theorem clean_content_order (s : List Char) (i : Nat) (h : i < (splitLines s).length) :
    ((splitLines s).map cleanLine).get ⟨i, by simpa using h⟩ =
      cleanLine ((splitLines s).get ⟨i, h⟩) := by
  simp

/-- Witness for C4 at the input `"-a\nb"`, index 0. -/
theorem clean_content_order_witness :
    0 < (splitLines ['-', 'a', '\n', 'b']).length ∧
    ((splitLines ['-', 'a', '\n', 'b']).map cleanLine).get ⟨0, by decide⟩ =
      cleanLine ((splitLines ['-', 'a', '\n', 'b']).get ⟨0, by decide⟩) :=
  ⟨by decide, clean_content_order ['-', 'a', '\n', 'b'] 0 (by decide)⟩

/-- C5: the output is the cleaned lines joined by exactly one `'\n'` between
consecutive entries — an empty input yields an empty output, and a nonempty
input with `n` lines yields an output containing exactly `n - 1` newline
characters, so no newline is added beyond the join. -/
theorem clean_content_join :
    clean_content [] = [] ∧
    ∀ s : List Char, splitLines s ≠ [] →
      (clean_content s).count '\n' = (splitLines s).length - 1 := by
  refine ⟨rfl, fun s hne => ?_⟩
  have hnn := cleaned_entries_no_newline s
  have hmapne : (splitLines s).map cleanLine ≠ [] := by
    intro h0
    exact hne (List.map_eq_nil_iff.mp h0)
  have hcount := count_newline_intercalate ((splitLines s).map cleanLine) hnn hmapne
  show (List.intercalate ['\n'] ((splitLines s).map cleanLine)).count '\n' =
    (splitLines s).length - 1
  rw [hcount]
  simp

/-- Witness for C5 at the input `"a\nb"`: the output has exactly one newline. -/
theorem clean_content_join_witness :
    clean_content [] = [] ∧ splitLines ['a', '\n', 'b'] ≠ [] ∧
    (clean_content ['a', '\n', 'b']).count '\n' =
      (splitLines ['a', '\n', 'b']).length - 1 :=
  ⟨clean_content_join.1, by decide, clean_content_join.2 _ (by decide)⟩

/-- C6: if the input path is absent or unreadable, the run fails with the
input-unreadable error and returns the file system completely unchanged — in
particular nothing at the output path is created, truncated or modified. -/
theorem clean_dependencies_input_missing (inp outp : String) (fs : FS)
    (h : fs.files inp = none) :
    clean_dependencies inp outp fs = (Except.error FileError.inputUnreadable, fs) := by
  simp [clean_dependencies, h]

/-- Witness for C6 on the empty file system. -/
theorem clean_dependencies_input_missing_witness :
    clean_dependencies "in" "out" ⟨fun _ => none⟩ =
      (Except.error FileError.inputUnreadable, ⟨fun _ => none⟩) :=
  clean_dependencies_input_missing "in" "out" ⟨fun _ => none⟩ rfl

/-- C7: the single line `"---   requests"` cleans to `"requests"`: every
leading `'-'` and `' '` is removed whatever their count or interleaving. -/
theorem cleanLine_requests :
    cleanLine ['-', '-', '-', ' ', ' ', ' ', 'r', 'e', 'q', 'u', 'e', 's', 't', 's'] =
      ['r', 'e', 'q', 'u', 'e', 's', 't', 's'] := by decide

/-- C8: the cleaner is deterministic — two runs whose input files hold the
same content write the identical output content, whatever the rest of the
file system holds, overwriting any prior content at the output path. -/
theorem clean_dependencies_deterministic (inp outp : String) (s : List Char)
    (fs₁ fs₂ : FS) (h₁ : fs₁.files inp = some s) (h₂ : fs₂.files inp = some s) :
    (clean_dependencies inp outp fs₁).2.files outp = some (clean_content s) ∧
    (clean_dependencies inp outp fs₂).2.files outp = some (clean_content s) := by
  constructor <;> simp [clean_dependencies, h₁, h₂, writeFile]

/-- Witness for C8: a file system whose every path (the output path
included) already holds `"-z"` has its output overwritten with the cleaned
content `"z"`. -/
theorem clean_dependencies_deterministic_witness :
    (clean_dependencies "in" "out" ⟨fun _ => some ['-', 'z']⟩).2.files "out" =
      some (clean_content ['-', 'z']) ∧
    (clean_dependencies "in" "out" ⟨fun _ => some ['-', 'z']⟩).2.files "out" =
      some (clean_content ['-', 'z']) :=
  clean_dependencies_deterministic "in" "out" ['-', 'z'] _ _ rfl rfl

/-- C9: the cleaned line is a contiguous substring of the original line:
characters are removed only at the two ends, and every surviving character is
unchanged and keeps its relative position. -/
theorem cleanLine_contiguous (L : List Char) : cleanLine L <:+: L :=
  cleanLine_isInfix L

/-- C10: a leading tab blocks the dash strip — the character-set strip of
`"- "` removes nothing from a line starting with `'\t'`, so only the
whitespace strip applies, and in particular `"\t- numpy"` cleans to
`"- numpy"`, not `"numpy"`. -/
theorem cleanLine_tab_blocks_dash_strip :
    (∀ L : List Char, lstripDashSpace ('\t' :: L) = '\t' :: L) ∧
    (∀ L : List Char, cleanLine ('\t' :: L) = pyStrip ('\t' :: L)) ∧
    cleanLine ['\t', '-', ' ', 'n', 'u', 'm', 'p', 'y'] = ['-', ' ', 'n', 'u', 'm', 'p', 'y'] := by
  have hstep : ∀ L : List Char, lstripDashSpace ('\t' :: L) = '\t' :: L := by
    intro L
    rw [lstripDashSpace, List.dropWhile_cons]
    simp [dashSpace]
  refine ⟨hstep, fun L => ?_, by decide⟩
  rw [cleanLine, hstep]
